import Mathlib

/-!
Verification of the mind-map parser (`src/index.js` and `src/parser/emojis.js`).

JavaScript strings are sequences of UTF-16 code units; emoji handling in this
program works at the code-unit level (surrogate pairs), so we model a JS string
as a `List Nat` of code units.  All functions are translated directly from the
source.  The rich-text helpers `getText`/`getURL` live in `regex.js`, which is
not part of the sources under verification; every theorem quantifies over them
as arbitrary functions on JS strings.
-/

/-- A JavaScript string: a list of UTF-16 code units. -/
abbrev JSStr := List Nat

/-- Code units of an ASCII Lean string literal. -/
def strU (s : String) : JSStr := s.data.map Char.toNat

/-- First half of the surrogate range `[\uD800-\uDBFF]` of `matchEmojis`. -/
def isHighSurrogate (c : Nat) : Bool := decide (0xD800 ≤ c ∧ c ≤ 0xDBFF)

/-- Second half of the surrogate range `[\uDC00-\uDFFF]` of `matchEmojis`. -/
def isLowSurrogate (c : Nat) : Bool := decide (0xDC00 ≤ c ∧ c ≤ 0xDFFF)

/-- JavaScript whitespace (`\s`, and the set trimmed by `String.prototype.trim`). -/
def isJSWhite (c : Nat) : Bool :=
  decide (c = 0x9 ∨ c = 0xA ∨ c = 0xB ∨ c = 0xC ∨ c = 0xD ∨ c = 0x20 ∨
    c = 0xA0 ∨ c = 0x1680 ∨ (0x2000 ≤ c ∧ c ≤ 0x200A) ∨ c = 0x2028 ∨
    c = 0x2029 ∨ c = 0x202F ∨ c = 0x205F ∨ c = 0x3000 ∨ c = 0xFEFF)

/-- `String.prototype.trim`: drop whitespace from both ends. -/
def jsTrim (s : JSStr) : JSStr :=
  ((s.dropWhile isJSWhite).reverse.dropWhile isJSWhite).reverse

/-- `s.replace(pat, '')` with a string pattern: remove the first occurrence
of `pat` from `s` (no change when `pat` does not occur). -/
def replaceFirst : JSStr → JSStr → JSStr
  | [], _ => []
  | c :: rest, pat =>
    if pat.isPrefixOf (c :: rest) then (c :: rest).drop pat.length
    else c :: replaceFirst rest pat

/-- Index of the first occurrence of `pat` in `s`, if any. -/
def firstOccur : JSStr → JSStr → Option Nat
  | [], pat => if pat.isPrefixOf ([] : JSStr) then some 0 else none
  | c :: rest, pat =>
    if pat.isPrefixOf (c :: rest) then some 0
    else (firstOccur rest pat).map (· + 1)

/-- `parsedNode.text.match(matchEmojis)[0]`: the first surrogate pair
(`matchEmojis = /([\uD800-\uDBFF][\uDC00-\uDFFF])/g`) in the string. -/
def firstEmoji : JSStr → Option JSStr
  | a :: b :: rest =>
    if isHighSurrogate a && isLowSurrogate b then some [a, b]
    else firstEmoji (b :: rest)
  | _ => none

/-- `text.replace(matchEmojis, '')`: delete every surrogate pair. -/
def removeEmojis : JSStr → JSStr
  | a :: b :: rest =>
    if isHighSurrogate a && isLowSurrogate b then removeEmojis rest
    else a :: removeEmojis (b :: rest)
  | l => l

/-- The literal `"/id/"` of the internal-link regex. -/
def slashIdU : JSStr := strU "/id/"

/-- `url.match(/\/id\/(\S{40})/)`: the captured 40-code-unit token of the
first position where the pattern matches, if any. -/
def matchIdToken : JSStr → Option JSStr
  | [] => none
  | c :: rest =>
    let cand := ((c :: rest).drop 4).take 40
    if slashIdU.isPrefixOf (c :: rest) && (cand.length == 40) &&
        cand.all (fun u => ! isJSWhite u) then
      some cand
    else matchIdToken rest

/-- `n.toString(16)` for a non-negative number: minimal lowercase hex digits. -/
def jsHexLower (n : Nat) : JSStr := (Nat.toDigits 16 n).map Char.toNat

/-! ## `src/parser/emojis.js` -/

/-- `emojiTemplate`: generic GitHub emoji image tag. -/
def emojiTemplate (unicode : JSStr) : JSStr :=
  strU "<img class=\"mindmap-emoji\" src=\"https://assets-cdn.github.com/images/icons/emoji/unicode/" ++
    unicode ++ strU ".png\">"

/-- `customEmojiTemplate`: named GitHub emoji image tag. -/
def customEmojiTemplate (emoji : JSStr) : JSStr :=
  strU "<img class=\"mindmap-emoji\" src=\"https://assets-cdn.github.com/images/icons/emoji/" ++
    emoji ++ strU ".png\">"

/-- The octopus emoji 🐙 (U+1F419) as its UTF-16 surrogate pair. -/
def octopusU : JSStr := [0xD83D, 0xDC19]

/-- The robot emoji 🤖 (U+1F916) as its UTF-16 surrogate pair. -/
def robotU : JSStr := [0xD83E, 0xDD16]

/-- The card-index-dividers emoji 🗂 (U+1F5C2) as its UTF-16 surrogate pair. -/
def cardIndexDividersU : JSStr := [0xD83D, 0xDDC2]

/-- Hardcoded reddit image tag returned by `emojiToHTML` for 🤖. -/
def redditImgU : JSStr :=
  strU "<img class=\"mindmap-emoji reddit-emoji\" src=\"https://encrypted-tbn0.gstatic.com/images?q=tbn:ANd9GcTNpOQVZdTCyVamjJPl92KjaDHigNWVM8mOLHPRU4DHoVNJWxCg\">"

/-- Hardcoded stack-exchange image tag returned by `emojiToHTML` for 🗂. -/
def seImgU : JSStr :=
  strU "<img class=\"mindmap-emoji\" src=\"https://cdn.sstatic.net/Sites/stackoverflow/company/img/logos/se/se-icon.png?v=93426798a1d4\">"

/-- Replacement callback of `emojiToHTML` on one matched surrogate pair
`[a, b]`: three hardcoded special cases, otherwise the image named by `"1"`
followed by `((a & 0x3FF) << 10) + (b & 0x3FF)` in lowercase hex. -/
def emojiReplacement (a b : Nat) : JSStr :=
  if [a, b] = octopusU then customEmojiTemplate (strU "octocat")
  else if [a, b] = robotU then redditImgU
  else if [a, b] = cardIndexDividersU then seImgU
  else
    let lead := a &&& 0x3FF
    let trail := b &&& 0x3FF
    emojiTemplate (strU "1" ++ jsHexLower ((lead <<< 10) + trail))

/-- `emojiToHTML`: `html.replace(matchEmojis, callback)` — replace every
surrogate pair by its `emojiReplacement`. -/
def emojiToHTML : JSStr → JSStr
  | a :: b :: rest =>
    if isHighSurrogate a && isLowSurrogate b then
      emojiReplacement a b ++ emojiToHTML rest
    else a :: emojiToHTML (b :: rest)
  | l => l

/-- `emojiToCategory`: the switch of `src/parser/emojis.js`, one case per
emoji literal (each written as its UTF-16 surrogate pair), default `""`. -/
def emojiToCategory (emoji : JSStr) : String :=
  if emoji = [0xD83D, 0xDDFA] then "mindmap"          -- 🗺 U+1F5FA
  else if emoji = [0xD83C, 0xDF10] then "wiki"        -- 🌐 U+1F310
  else if emoji = [0xD83D, 0xDDC2] then "stack exchange" -- 🗂 U+1F5C2
  else if emoji = [0xD83D, 0xDCD6] then "free book"   -- 📖 U+1F4D6
  else if emoji = [0xD83D, 0xDCD5] then "non-free book" -- 📕 U+1F4D5
  else if emoji = [0xD83D, 0xDCC4] then "paper"       -- 📄 U+1F4C4
  else if emoji = [0xD83D, 0xDC40] then "video"       -- 👀 U+1F440
  else if emoji = [0xD83D, 0xDD8B] then "article"     -- 🖋 U+1F58B
  else if emoji = [0xD83D, 0xDDC3] then "blog"        -- 🗃 U+1F5C3
  else if emoji = [0xD83D, 0xDC19] then "github"      -- 🐙 U+1F419
  else if emoji = [0xD83D, 0xDC7E] then "interactive" -- 👾 U+1F47E
  else if emoji = [0xD83D, 0xDD8C] then "image"       -- 🖌 U+1F58C
  else if emoji = [0xD83C, 0xDF99] then "podcast"     -- 🎙 U+1F399
  else if emoji = [0xD83D, 0xDCEE] then "newsletter"  -- 📮 U+1F4EE
  else if emoji = [0xD83D, 0xDDE3] then "chat"        -- 🗣 U+1F5E3
  else if emoji = [0xD83C, 0xDFA5] then "youtube"     -- 🎥 U+1F3A5
  else if emoji = [0xD83E, 0xDD16] then "reddit"      -- 🤖 U+1F916
  else ""

/-! ## `src/index.js`: data model and node normalization -/

/-- A raw MindNode node: rich-text title (`title.text`, absent title modelled
as `none` since the code dereferences it unconditionally), optional rich-text
note (`note.text`), location, shape style (`some none` = `shapeStyle` present
without `borderStrokeStyle`, `some (some c)` = border stroke color `c`), and
child nodes. -/
inductive RawNode : Type where
  | mk (title : Option JSStr) (note : Option JSStr) (locx : Int) (locy : Int)
       (style : Option (Option JSStr)) (nodes : List RawNode)

/-- `node.title.text` (when the title object is present). -/
def RawNode.title : RawNode → Option JSStr
  | .mk t _ _ _ _ _ => t

/-- `node.note.text` (when the note object is present). -/
def RawNode.note : RawNode → Option JSStr
  | .mk _ n _ _ _ _ => n

/-- `node.location.x`. -/
def RawNode.locx : RawNode → Int
  | .mk _ _ x _ _ _ => x

/-- `node.location.y`. -/
def RawNode.locy : RawNode → Int
  | .mk _ _ _ y _ _ => y

/-- `node.shapeStyle` (with `borderStrokeStyle.color` inside). -/
def RawNode.style : RawNode → Option (Option JSStr)
  | .mk _ _ _ _ s _ => s

/-- `node.nodes`. -/
def RawNode.nodes : RawNode → List RawNode
  | .mk _ _ _ _ _ ns => ns

/-- Output of `parseNode`: `url` and `note` may be `undefined` (`none`);
`category` is present only when the emoji branch ran. -/
structure ParsedNode where
  text : JSStr
  note : Option JSStr
  url : Option JSStr
  fx : Int
  fy : Int
  category : Option String
deriving DecidableEq

/-- The note boilerplate literal of `index.js` (two spaces before "please"). -/
def boilerU : JSStr :=
  strU "if you think this can be improved in any way  please say"

/-- `parseNode(node)`.  `getText`/`getURL` are the `regex.js` helpers (outside
the verified sources, passed as arbitrary functions); `mapsLookup` is the
cross-document token table.  Returns `none` when the title object is absent
(the code throws a `TypeError` on `node.title.text` in that case). -/
def parseNode (getText getURL : JSStr → JSStr)
    (mapsLookup : JSStr → Option JSStr) (n : RawNode) : Option ParsedNode :=
  match n.title with
  | none => none
  | some tt =>
    let text0 := getText tt
    let note0 : Option JSStr := n.note.map getText
    let url0 := getURL tt
    let url1 : Option JSStr :=
      match matchIdToken url0 with
      | some tok => mapsLookup tok
      | none => some url0
    let note1 : Option JSStr :=
      match note0 with
      | some s => if s = [] then some s else some (replaceFirst s boilerU)
      | none => none
    match firstEmoji text0 with
    | some e =>
      some { text := jsTrim (removeEmojis text0), note := note1, url := url1,
             fx := n.locx, fy := n.locy, category := some (emojiToCategory e) }
    | none =>
      some { text := text0, note := note1, url := url1,
             fx := n.locx, fy := n.locy, category := none }

/-- `Object.assign({ parent }, subnode)`: the raw subnode tagged with the
parent text it will carry into `parseSubnode`. -/
structure TaggedNode where
  parent : JSStr
  node : RawNode

/-- `getSubnodesR(subnodes, parent)`: push each subnode tagged with `parent`,
then its descendants tagged via `parseNode(subnode).text`.  `none` when
`parseNode` fails (absent title) anywhere in the walk. -/
def getSubnodesR (getText getURL : JSStr → JSStr)
    (mapsLookup : JSStr → Option JSStr) :
    List RawNode → JSStr → Option (List TaggedNode)
  | [], _ => some []
  | RawNode.mk t no x y st cs :: rest, par => do
    let pn ← parseNode getText getURL mapsLookup (RawNode.mk t no x y st cs)
    let sub ← getSubnodesR getText getURL mapsLookup cs pn.text
    let tail ← getSubnodesR getText getURL mapsLookup rest par
    pure ({ parent := par, node := RawNode.mk t no x y st cs } :: (sub ++ tail))

/-- `getSubnodes(nodes)`: concatenate `getSubnodesR(node.nodes,
parseNode(node).text)` over the top-level nodes. -/
def getSubnodes (getText getURL : JSStr → JSStr)
    (mapsLookup : JSStr → Option JSStr) :
    List RawNode → Option (List TaggedNode)
  | [] => some []
  | n :: rest => do
    let pn ← parseNode getText getURL mapsLookup n
    let sub ← getSubnodesR getText getURL mapsLookup n.nodes pn.text
    let tail ← getSubnodes getText getURL mapsLookup rest
    pure (sub ++ tail)

/-- Output of `parseSubnode`: a parsed node plus `color` and `parent`. -/
structure ParsedSubnode where
  text : JSStr
  note : Option JSStr
  url : Option JSStr
  fx : Int
  fy : Int
  category : Option String
  color : Option JSStr
  parent : JSStr
deriving DecidableEq

/-- `parseSubnode(subnode)` on a tagged subnode: `parseNode` plus the border
stroke color (when `shapeStyle && shapeStyle.borderStrokeStyle`) and the
`parent` tag copied through. -/
def parseSubnode (getText getURL : JSStr → JSStr)
    (mapsLookup : JSStr → Option JSStr) (sn : TaggedNode) :
    Option ParsedSubnode :=
  (parseNode getText getURL mapsLookup sn.node).map fun pn =>
    let color : Option JSStr :=
      match sn.node.style with
      | some (some c) => some c
      | _ => none
    { text := pn.text, note := pn.note, url := pn.url, fx := pn.fx,
      fy := pn.fy, category := pn.category, color := color,
      parent := sn.parent }

/-- A raw MindNode connection (`title` is `title.text` when present). -/
structure RawConn where
  startNodeID : Nat
  endNodeID : Nat
  title : Option JSStr
  wayPointOffset : Int × Int

/-- Output of `parseConn`: `source`/`target` may be `undefined` (unknown ID),
`text` is present only when the title branch ran. -/
structure ParsedConn where
  source : Option JSStr
  target : Option JSStr
  curve : Int × Int
  text : Option JSStr
deriving DecidableEq

/-- `parseConn(conn, lookup)`: resolve endpoint IDs through the per-document
lookup, copy the waypoint offset into `curve`, and set `text` only when
`conn.title && conn.title.text` (title present with non-empty text). -/
def parseConn (getText : JSStr → JSStr) (lookup : Nat → Option JSStr)
    (conn : RawConn) : ParsedConn :=
  let text1 : Option JSStr :=
    match conn.title with
    | some t => if t = [] then none else some (getText t)
    | none => none
  { source := lookup conn.startNodeID, target := lookup conn.endNodeID,
    curve := conn.wayPointOffset, text := text1 }

/-! ## `src/index.js`: pass 1, the cross-document link table -/

/-- The literal `".json"`. -/
def jsonU : JSStr := strU ".json"

/-- The literal `"/learn-anything"`. -/
def learnAnythingU : JSStr := strU "/learn-anything"

/-- Relative path computed by the pass-1 callback:
`filename.replace(inputBasePath, '').replace('.json', '')`, then removal of
`'/learn-anything'` unless the path equals it exactly. -/
def relPath (basePath fname : JSStr) : JSStr :=
  let p1 := replaceFirst fname basePath
  let p2 := replaceFirst p1 jsonU
  if p2 = learnAnythingU then p2 else replaceFirst p2 learnAnythingU

/-- Pass 1 over the collection: `mapsLookup[map.token] = relativeFilePath`
for each `(token, filename)` in walk order (later assignments win). -/
def buildLookup (basePath : JSStr) (docs : List (JSStr × JSStr)) :
    JSStr → Option JSStr :=
  docs.foldl
    (fun m d => fun q => if q = d.1 then some (relPath basePath d.2) else m q)
    (fun _ => none)

/-! ## Reference functions for the flattening claims -/

/-- Depth-first pre-order listing of a forest: each node before its
descendants, children in input order. -/
def preorderF : List RawNode → List RawNode
  | [] => []
  | RawNode.mk t no x y st cs :: rest =>
    RawNode.mk t no x y st cs :: (preorderF cs ++ preorderF rest)

/-- Total number of nodes in a forest. -/
def countF : List RawNode → Nat
  | [] => 0
  | RawNode.mk _ _ _ _ _ cs :: rest => 1 + countF cs + countF rest

/-! ## Claim-side reference definitions and concrete fixtures -/

/-- The 17-entry category table of the `emojiToCategory` switch, as data. -/
def categoryTable : List (JSStr × String) :=
  [([0xD83D, 0xDDFA], "mindmap"), ([0xD83C, 0xDF10], "wiki"),
   ([0xD83D, 0xDDC2], "stack exchange"), ([0xD83D, 0xDCD6], "free book"),
   ([0xD83D, 0xDCD5], "non-free book"), ([0xD83D, 0xDCC4], "paper"),
   ([0xD83D, 0xDC40], "video"), ([0xD83D, 0xDD8B], "article"),
   ([0xD83D, 0xDDC3], "blog"), ([0xD83D, 0xDC19], "github"),
   ([0xD83D, 0xDC7E], "interactive"), ([0xD83D, 0xDD8C], "image"),
   ([0xD83C, 0xDF99], "podcast"), ([0xD83D, 0xDCEE], "newsletter"),
   ([0xD83D, 0xDDE3], "chat"), ([0xD83C, 0xDFA5], "youtube"),
   ([0xD83E, 0xDD16], "reddit")]

/-- Path derivation as the spec's words describe it (for comparison with
`relPath`): base prefix stripped, the `.json` suffix stripped, and the
sentinel segment removed unless the path is exactly the sentinel. -/
def relPathClaim (basePath fname : JSStr) : JSStr :=
  let p1 := if basePath.isPrefixOf fname then fname.drop basePath.length else fname
  let p2 := if jsonU.isSuffixOf p1 then p1.take (p1.length - jsonU.length) else p1
  if p2 = learnAnythingU then p2 else replaceFirst p2 learnAnythingU

/-- Identity in place of the abstract `getText`/`getURL` in concrete runs. -/
def idJS : JSStr → JSStr := fun s => s

/-- The empty cross-document table (no known tokens). -/
def lkNone : JSStr → Option JSStr := fun _ => none

/-- The single-spaced boilerplate phrase as the spec writes it. -/
def phraseOneSpaceU : JSStr :=
  strU "if you think this can be improved in any way please say"

/-- Leaf fixture node. -/
def nodeA : RawNode := RawNode.mk (some (strU "leaf")) none 0 0 none []

/-- Middle fixture node with one child. -/
def nodeB : RawNode := RawNode.mk (some (strU "mid")) none 1 1 none [nodeA]

/-- Top fixture node with a two-level subtree. -/
def nodeT : RawNode := RawNode.mk (some (strU "top")) none 2 2 none [nodeB]

/-- Fixture node whose title is only the unrecognized emoji 😀 (U+1F600). -/
def nodeEmo : RawNode := RawNode.mk (some [0xD83D, 0xDE00]) none 0 0 none []

/-- Fixture node whose title carries the 👀 marker before a label. -/
def nodeEye : RawNode :=
  RawNode.mk (some ([0xD83D, 0xDC40] ++ strU " Intro")) none 0 0 none []

/-- Fixture node with a note equal to the single-spaced phrase. -/
def nodeNote : RawNode :=
  RawNode.mk (some (strU "t")) (some phraseOneSpaceU) 0 0 none []

/-- Fixture node without a title object. -/
def nodeNoTitle : RawNode := RawNode.mk none none 0 0 none []

/-- Fixture connection with a present-but-empty title text. -/
def connEmptyTitle : RawConn :=
  { startNodeID := 0, endNodeID := 1, title := some [], wayPointOffset := (3, 4) }

/-- Fixture connection with a non-empty title. -/
def connTitled : RawConn :=
  { startNodeID := 0, endNodeID := 1, title := some (strU "hi"),
    wayPointOffset := (5, 6) }

/-- `occursIn s pat`: `pat` occurs somewhere in `s`. -/
def occursIn (s pat : JSStr) : Bool := (firstOccur s pat).isSome

/-- A 40-character token (40 times "a"). -/
def token40U : JSStr := List.replicate 40 97

/-- Fixture node whose title text is an internal `/id/`-link URL. -/
def nodeUrl : RawNode :=
  RawNode.mk (some (slashIdU ++ token40U)) none 0 0 none []

/-- The parsed form of `nodeEye` (under identity text extractors and the
empty token table). -/
def pnEye : ParsedNode :=
  { text := strU "Intro", note := none,
    url := some ([0xD83D, 0xDC40] ++ strU " Intro"), fx := 0, fy := 0,
    category := some "video" }

/-- Fixture node whose note contains the double-spaced boilerplate phrase. -/
def nodeBoiler : RawNode :=
  RawNode.mk (some (strU "t")) (some (strU "A: " ++ (boilerU ++ strU "."))) 0 0
    none []

/-- Fixture single-document collection for the link-table pass. -/
def docsW : List (JSStr × JSStr) :=
  [(token40U, strU "/base" ++ (strU "/maps/chemistry" ++ jsonU))]

/-- The 16 table entries the emoji-classifier claim lists (it omits the
card-index-dividers entry the code also has). -/
def categoryTableClaim : List (JSStr × String) :=
  [([0xD83D, 0xDDFA], "mindmap"), ([0xD83C, 0xDF10], "wiki"),
   ([0xD83D, 0xDCD6], "free book"), ([0xD83D, 0xDCD5], "non-free book"),
   ([0xD83D, 0xDCC4], "paper"), ([0xD83D, 0xDC40], "video"),
   ([0xD83D, 0xDD8B], "article"), ([0xD83D, 0xDDC3], "blog"),
   ([0xD83D, 0xDC19], "github"), ([0xD83D, 0xDC7E], "interactive"),
   ([0xD83D, 0xDD8C], "image"), ([0xD83C, 0xDF99], "podcast"),
   ([0xD83D, 0xDCEE], "newsletter"), ([0xD83D, 0xDDE3], "chat"),
   ([0xD83C, 0xDFA5], "youtube"), ([0xD83E, 0xDD16], "reddit")]


/-! ## Theorems -/

/-- C9 counterexample: the card-index-dividers emoji 🗂 is outside the table
the claim lists, yet `emojiToCategory` does not return the empty string on it
(it returns "stack exchange"; the code's switch has 17 entries, not 15). -/
theorem emojiToCategory_cardIndex_cex :
    cardIndexDividersU ∉ categoryTableClaim.map Prod.fst ∧
    emojiToCategory cardIndexDividersU = "stack exchange" ∧
    ("stack exchange" : String) ≠ "" ∧ categoryTable.length = 17 :=
  ⟨by decide, rfl, by decide, rfl⟩

/-- C9 (amended): `emojiToCategory` is the fixed 17-entry lookup table
`categoryTable` (the claim's 16 entries plus card-index-dividers →
"stack exchange"), and every emoji outside the table maps to `""`. -/
theorem emojiToCategory_table_char :
    (∀ p ∈ categoryTable, emojiToCategory p.1 = p.2) ∧
    categoryTable.length = 17 ∧
    (∀ m : JSStr, m ∉ categoryTable.map Prod.fst → emojiToCategory m = "") := by
  refine ⟨?_, rfl, ?_⟩
  · intro p hp
    fin_cases hp <;> rfl
  · intro m hm
    simp only [categoryTable, List.map_cons, List.map_nil, List.mem_cons,
      List.not_mem_nil, or_false, not_or] at hm
    obtain ⟨h1, h2, h3, h4, h5, h6, h7, h8, h9, h10, h11, h12, h13, h14, h15,
      h16, h17⟩ := hm
    unfold emojiToCategory
    rw [if_neg h1, if_neg h2, if_neg h3, if_neg h4, if_neg h5, if_neg h6,
      if_neg h7, if_neg h8, if_neg h9, if_neg h10, if_neg h11, if_neg h12,
      if_neg h13, if_neg h14, if_neg h15, if_neg h16, if_neg h17]

/-- C9 witness: the table theorem applied to the pictogram entry and to the
plain letter "A" (not an emoji). -/
theorem emojiToCategory_table_char_witness :
    emojiToCategory [0xD83D, 0xDDFA] = "mindmap" ∧ emojiToCategory [65] = "" :=
  ⟨emojiToCategory_table_char.1 ([0xD83D, 0xDDFA], "mindmap") (by decide),
   emojiToCategory_table_char.2.2 [65] (by decide)⟩

/-- C10: on any surrogate pair other than the three special-cased emoji,
`emojiToHTML` replaces the pair with the generic image tag whose icon name is
`"1"` followed by `((lead & 0x3FF) << 10) + (trail & 0x3FF)` in lowercase
hex, and continues on the rest of the string. -/
theorem emojiToHTML_surrogate (a b : Nat) (rest : JSStr)
    (ha : isHighSurrogate a = true) (hb : isLowSurrogate b = true)
    (h1 : [a, b] ≠ octopusU) (h2 : [a, b] ≠ robotU)
    (h3 : [a, b] ≠ cardIndexDividersU) :
    emojiToHTML (a :: b :: rest) =
      emojiTemplate
        (strU "1" ++ jsHexLower (((a &&& 0x3FF) <<< 10) + (b &&& 0x3FF))) ++
      emojiToHTML rest := by
  simp [emojiToHTML, ha, hb, emojiReplacement, h1, h2, h3]

/-- C10 witness: the theorem applied to 😀 (U+1F600, surrogates D83D DE00). -/
theorem emojiToHTML_surrogate_witness :
    emojiToHTML [0xD83D, 0xDE00] =
      emojiTemplate
        (strU "1" ++
         jsHexLower (((0xD83D &&& 0x3FF) <<< 10) + (0xDE00 &&& 0x3FF))) ++
      emojiToHTML [] :=
  emojiToHTML_surrogate 0xD83D 0xDE00 [] (by decide) (by decide) (by decide)
    (by decide) (by decide)

/-- C8 counterexample: a connection whose title object is present but whose
title text is empty gets no `text` field at all, although the claim says a
present title always yields `text` equal to the extracted title text. -/
theorem parseConn_emptyTitle_cex :
    connEmptyTitle.title = some [] ∧
    (parseConn idJS (fun _ => none) connEmptyTitle).text = none := by
  decide

/-- C8 (amended): `parseConn` copies the waypoint offset verbatim into
`curve` and resolves the endpoints through the lookup; `text` is omitted when
the title is absent, and when a title is present `text` is the extracted
title text unless that title text is empty, in which case `text` is again
omitted. -/
theorem parseConn_fields (getText : JSStr → JSStr) (lookup : Nat → Option JSStr)
    (conn : RawConn) :
    (parseConn getText lookup conn).curve = conn.wayPointOffset ∧
    (parseConn getText lookup conn).source = lookup conn.startNodeID ∧
    (parseConn getText lookup conn).target = lookup conn.endNodeID ∧
    (conn.title = none → (parseConn getText lookup conn).text = none) ∧
    (∀ t, conn.title = some t →
      (parseConn getText lookup conn).text =
        if t = [] then none else some (getText t)) := by
  refine ⟨rfl, rfl, rfl, ?_, ?_⟩
  · intro h
    simp [parseConn, h]
  · intro t h
    simp [parseConn, h]

/-- C8 witness: the field theorem applied to a connection with the non-empty
title "hi". -/
theorem parseConn_fields_witness :
    (parseConn idJS (fun _ => none) connTitled).text = some (strU "hi") ∧
    (parseConn idJS (fun _ => none) connTitled).curve = (5, 6) := by
  have h := parseConn_fields idJS (fun _ => none) connTitled
  have ht := h.2.2.2.2 (strU "hi") (by decide)
  rw [if_neg (by decide)] at ht
  exact ⟨ht, h.1⟩

/-- C7 counterexample: a raw node without a title object makes `parseNode`
fail (the code dereferences `node.title.text` unconditionally), although the
claim says an absent title is tolerated. -/
theorem parseNode_missingTitle_cex :
    parseNode idJS idJS lkNone nodeNoTitle = none := by
  decide

/-- C7 (amended): when the title object is present, `parseNode` succeeds on
every node regardless of the optional note: an absent note is represented as
an absent `note` field, not an error (an absent title, by contrast, fails —
see the counterexample). -/
theorem parseNode_optionalFields (getText getURL : JSStr → JSStr)
    (mapsLookup : JSStr → Option JSStr) (tt : JSStr) (x y : Int)
    (st : Option (Option JSStr)) (cs : List RawNode) :
    ∃ pn, parseNode getText getURL mapsLookup
        (RawNode.mk (some tt) none x y st cs) = some pn ∧ pn.note = none := by
  unfold parseNode
  simp only [RawNode.title, RawNode.note, RawNode.locx, RawNode.locy,
    Option.map_none]
  cases firstEmoji (getText tt) <;> simp

/-- Removing a pattern that sits at the front of a string leaves the rest. -/
theorem replaceFirst_append_self (pat rest : JSStr) :
    replaceFirst (pat ++ rest) pat = rest := by
  cases hpr : pat ++ rest with
  | nil =>
    rw [List.append_eq_nil] at hpr
    rw [hpr.1, hpr.2]
    rfl
  | cons c tl =>
    have hp : pat.isPrefixOf (c :: tl) = true := by
      rw [← hpr]
      exact List.isPrefixOf_iff_prefix.mpr (List.prefix_append _ _)
    simp only [replaceFirst]
    rw [if_pos hp, ← hpr, List.drop_left]

/-- `replaceFirst` removes exactly the first occurrence of the pattern. -/
theorem replaceFirst_of_firstOccur (a pat b : JSStr)
    (h : firstOccur (a ++ (pat ++ b)) pat = some a.length) :
    replaceFirst (a ++ (pat ++ b)) pat = a ++ b := by
  induction a with
  | nil =>
    simpa using replaceFirst_append_self pat b
  | cons x a' ih =>
    simp only [List.cons_append] at h ⊢
    rw [firstOccur] at h
    by_cases hp : pat.isPrefixOf (x :: (a' ++ (pat ++ b))) = true
    · rw [if_pos hp] at h
      simp at h
    · rw [if_neg hp] at h
      have h' : firstOccur (a' ++ (pat ++ b)) pat = some a'.length := by
        cases hfo : firstOccur (a' ++ (pat ++ b)) pat with
        | none => rw [hfo] at h; simp at h
        | some k =>
          rw [hfo] at h
          simp at h
          have hk : k = a'.length := by omega
          rw [hk]
      simp only [replaceFirst]
      rw [if_neg hp, ih h']

/-- C6 counterexample: the code's boilerplate literal has two spaces between
"way" and "please"; a note equal to the single-spaced phrase the claim quotes
passes through `parseNode` unchanged and still contains that phrase. -/
theorem parseNode_note_cex :
    (parseNode idJS idJS lkNone nodeNote).map ParsedNode.note =
      some (some phraseOneSpaceU) ∧
    occursIn phraseOneSpaceU phraseOneSpaceU = true ∧
    phraseOneSpaceU ≠ [] := by
  refine ⟨?_, by decide, by decide⟩
  decide

/-- C6 (amended): for a node with a non-empty extracted note, `parseNode`
removes the first occurrence of the double-spaced boilerplate phrase
`boilerU` from the note. -/
theorem parseNode_note_boiler (getText getURL : JSStr → JSStr)
    (mapsLookup : JSStr → Option JSStr) (n : RawNode) (tt nt a b : JSStr)
    (htitle : n.title = some tt) (hnote : n.note = some nt)
    (hsplit : getText nt = a ++ (boilerU ++ b))
    (hfirst : firstOccur (getText nt) boilerU = some a.length) :
    ∃ pn, parseNode getText getURL mapsLookup n = some pn ∧
      pn.note = some (a ++ b) := by
  have hboiler : boilerU ≠ [] := by decide
  have hne : getText nt ≠ [] := by
    rw [hsplit]
    intro hc
    rcases List.append_eq_nil.mp hc with ⟨-, hc2⟩
    rcases List.append_eq_nil.mp hc2 with ⟨hc3, -⟩
    exact hboiler hc3
  have hrepl : replaceFirst (getText nt) boilerU = a ++ b := by
    rw [hsplit]
    exact replaceFirst_of_firstOccur a boilerU b (hsplit ▸ hfirst)
  unfold parseNode
  rw [htitle]
  simp only [hnote, Option.map_some', if_neg hne, hrepl]
  cases firstEmoji (getText tt) <;> exact ⟨_, rfl, rfl⟩

/-- C6 witness: the boilerplate-trim theorem applied to a concrete note
"A: <boilerplate>." whose trimmed form is "A: .". -/
theorem parseNode_note_boiler_witness :
    ∃ pn, parseNode idJS idJS lkNone nodeBoiler = some pn ∧
      pn.note = some (strU "A: " ++ strU ".") :=
  parseNode_note_boiler idJS idJS lkNone nodeBoiler (strU "t")
    (strU "A: " ++ (boilerU ++ strU ".")) (strU "A: ") (strU ".") rfl rfl rfl
    (by decide)

/-- C5: when the extracted URL matches the internal-link pattern
`/\/id\/(\S{40})/` and the captured token is unknown to the cross-document
table, `parseNode` still succeeds and leaves `url` as `undefined`. -/
theorem parseNode_unknownToken (getText getURL : JSStr → JSStr)
    (mapsLookup : JSStr → Option JSStr) (n : RawNode) (tt tok : JSStr)
    (htitle : n.title = some tt)
    (hmatch : matchIdToken (getURL tt) = some tok)
    (hlk : mapsLookup tok = none) :
    ∃ pn, parseNode getText getURL mapsLookup n = some pn ∧ pn.url = none := by
  unfold parseNode
  rw [htitle]
  simp only [hmatch, hlk]
  cases firstEmoji (getText tt) <;> exact ⟨_, rfl, rfl⟩

/-- C5 witness: the unknown-token theorem applied to a node whose title text
is `/id/` followed by forty "a", against the empty table. -/
theorem parseNode_unknownToken_witness :
    ∃ pn, parseNode idJS idJS lkNone nodeUrl = some pn ∧ pn.url = none :=
  parseNode_unknownToken idJS idJS lkNone nodeUrl (slashIdU ++ token40U)
    token40U rfl (by decide) rfl

/-- C1 counterexample: 😀 (U+1F600) is matched by `matchEmojis` but is not a
recognized category marker (`emojiToCategory` sends it to `""`); a node whose
title text is exactly 😀 nevertheless gets a `category` field, present with
value `""`, although the claim says no `category` field is present without a
recognized marker. -/
theorem parseNode_category_cex :
    firstEmoji (idJS [0xD83D, 0xDE00]) = some [0xD83D, 0xDE00] ∧
    emojiToCategory [0xD83D, 0xDE00] = "" ∧
    (parseNode idJS idJS lkNone nodeEmo).map ParsedNode.category =
      some (some "") := by
  refine ⟨by decide, rfl, ?_⟩
  decide

/-- C1 (amended): `parseNode` sets `category` exactly when the extracted text
contains a surrogate-pair emoji (recognized or not): when the first such pair
is `e`, `category` is present with value `emojiToCategory e` (which is `""`
for unrecognized emoji) and the text has every surrogate pair removed and is
then end-trimmed; when there is no surrogate pair, `category` is absent and
the text is untouched. -/
theorem parseNode_category (getText getURL : JSStr → JSStr)
    (mapsLookup : JSStr → Option JSStr) (n : RawNode) (tt : JSStr)
    (pn : ParsedNode) (htitle : n.title = some tt)
    (hpn : parseNode getText getURL mapsLookup n = some pn) :
    (pn.category.isSome ↔ (firstEmoji (getText tt)).isSome) ∧
    (∀ e, firstEmoji (getText tt) = some e →
      pn.category = some (emojiToCategory e) ∧
      pn.text = jsTrim (removeEmojis (getText tt))) ∧
    (firstEmoji (getText tt) = none →
      pn.category = none ∧ pn.text = getText tt) := by
  unfold parseNode at hpn
  rw [htitle] at hpn
  cases hfe : firstEmoji (getText tt) with
  | none =>
    simp only [hfe, Option.some.injEq] at hpn
    rw [← hpn]
    simp [hfe]
  | some e =>
    simp only [hfe, Option.some.injEq] at hpn
    rw [← hpn]
    simp [hfe]

/-- C1 witness: the category theorem applied to a node whose title is 👀
followed by " Intro". -/
theorem parseNode_category_witness :
    ∃ pn, parseNode idJS idJS lkNone nodeEye = some pn ∧
      pn.category = some (emojiToCategory [0xD83D, 0xDC40]) ∧
      pn.text = jsTrim (removeEmojis (idJS ([0xD83D, 0xDC40] ++ strU " Intro"))) := by
  have hpn : parseNode idJS idJS lkNone nodeEye = some pnEye := by decide
  have h := parseNode_category idJS idJS lkNone nodeEye
    ([0xD83D, 0xDC40] ++ strU " Intro") pnEye rfl hpn
  have h2 := h.2.1 [0xD83D, 0xDC40] (by decide)
  exact ⟨pnEye, hpn, h2.1, h2.2⟩

/-- C4 counterexample: on an origin path containing `.json` before its
suffix, the pass-1 callback removes the first occurrence of `.json`, not the
suffix the claim describes (`relPathClaim` is the claim's derivation). -/
theorem relPath_cex :
    relPath (strU "/b") (strU "/b/a.jsonx.json") = strU "/ax.json" ∧
    relPathClaim (strU "/b") (strU "/b/a.jsonx.json") = strU "/a.jsonx" ∧
    relPath (strU "/b") (strU "/b/a.jsonx.json") ≠
      relPathClaim (strU "/b") (strU "/b/a.jsonx.json") := by
  refine ⟨by decide, by decide, by decide⟩

/-- Pass 1 realizes last-assignment-wins: the table maps `q` to the relative
path of the last walked document whose token is `q`. -/
theorem buildLookup_eq_find (basePath : JSStr) (docs : List (JSStr × JSStr))
    (q : JSStr) :
    buildLookup basePath docs q =
      (docs.reverse.find? (fun d => d.1 == q)).map
        (fun d => relPath basePath d.2) := by
  suffices h : ∀ (m : JSStr → Option JSStr),
      (docs.foldl
        (fun m d => fun q' =>
          if q' = d.1 then some (relPath basePath d.2) else m q') m) q =
      ((docs.reverse.find? (fun d => d.1 == q)).map
        (fun d => relPath basePath d.2)).or (m q) by
    have h0 := h (fun _ => none)
    unfold buildLookup
    rw [h0, Option.or_none]
  intro m
  induction docs generalizing m with
  | nil => simp
  | cons d ds ih =>
    simp only [List.foldl_cons, List.reverse_cons, List.find?_append]
    rw [ih]
    cases hf : ds.reverse.find? (fun d => d.1 == q) with
    | some e => simp [hf]
    | none =>
      simp only [hf, Option.map_none', Option.none_or]
      by_cases hq : q = d.1
      · have hb : (d.1 == q) = true := by simp [hq]
        simp [hq, hb]
      · have hb : (d.1 == q) = false := by
          simp only [beq_eq_false_iff_ne, ne_eq]
          exact fun hc => hq hc.symm
        simp [hq, hb]

/-- C4 (amended): the table entry for a document's token is the origin path
with the base prefix stripped and the **first occurrence** of `.json`
removed (equal to the suffix when `.json` first occurs there), and — unless
the result is exactly `/learn-anything` — with the first occurrence of
`/learn-anything` removed. -/
theorem buildLookup_entry (basePath stem : JSStr)
    (docs : List (JSStr × JSStr)) (tok : JSStr)
    (hfind : docs.reverse.find? (fun d => d.1 == tok) =
      some (tok, basePath ++ (stem ++ jsonU)))
    (hfirst : firstOccur (stem ++ jsonU) jsonU = some stem.length) :
    buildLookup basePath docs tok =
      some (if stem = learnAnythingU then stem
            else replaceFirst stem learnAnythingU) := by
  rw [buildLookup_eq_find, hfind]
  simp only [Option.map_some']
  have h1 : replaceFirst (basePath ++ (stem ++ jsonU)) basePath =
      stem ++ jsonU := replaceFirst_append_self basePath (stem ++ jsonU)
  have h2 : replaceFirst (stem ++ jsonU) jsonU = stem := by
    have h3 := replaceFirst_of_firstOccur stem jsonU []
      (by simpa using hfirst)
    simpa using h3
  unfold relPath
  simp only [h1, h2]

/-- C4 witness: the table-entry theorem on a one-document collection rooted
at `/base` whose document sits at `/base/maps/chemistry.json`. -/
theorem buildLookup_entry_witness :
    buildLookup (strU "/base") docsW token40U =
      some (if strU "/maps/chemistry" = learnAnythingU
            then strU "/maps/chemistry"
            else replaceFirst (strU "/maps/chemistry") learnAnythingU) :=
  buildLookup_entry (strU "/base") (strU "/maps/chemistry") docsW token40U
    (by decide) (by decide)

/-- Inversion of one `getSubnodesR` step on a non-empty forest. -/
theorem getSubnodesR_cons_inv (getText getURL : JSStr → JSStr)
    (mapsLookup : JSStr → Option JSStr) (t no : Option JSStr) (x y : Int)
    (st : Option (Option JSStr)) (cs rest : List RawNode) (par : JSStr)
    (l : List TaggedNode)
    (h : getSubnodesR getText getURL mapsLookup
      (RawNode.mk t no x y st cs :: rest) par = some l) :
    ∃ pn sub tail,
      parseNode getText getURL mapsLookup (RawNode.mk t no x y st cs) =
        some pn ∧
      getSubnodesR getText getURL mapsLookup cs pn.text = some sub ∧
      getSubnodesR getText getURL mapsLookup rest par = some tail ∧
      l = ⟨par, RawNode.mk t no x y st cs⟩ :: (sub ++ tail) := by
  rw [getSubnodesR] at h
  simp only [Option.bind_eq_bind, Option.bind_eq_some, Option.pure_def,
    Option.some.injEq] at h
  obtain ⟨pn, hpn, sub, hsub, tail, htail, hl⟩ := h
  exact ⟨pn, sub, tail, hpn, hsub, htail, hl.symm⟩

/-- Inversion of one `getSubnodes` step on a non-empty node list. -/
theorem getSubnodes_cons_inv (getText getURL : JSStr → JSStr)
    (mapsLookup : JSStr → Option JSStr) (n : RawNode) (rest : List RawNode)
    (l : List TaggedNode)
    (h : getSubnodes getText getURL mapsLookup (n :: rest) = some l) :
    ∃ pn sub tail,
      parseNode getText getURL mapsLookup n = some pn ∧
      getSubnodesR getText getURL mapsLookup n.nodes pn.text = some sub ∧
      getSubnodes getText getURL mapsLookup rest = some tail ∧
      l = sub ++ tail := by
  rw [getSubnodes] at h
  simp only [Option.bind_eq_bind, Option.bind_eq_some, Option.pure_def,
    Option.some.injEq] at h
  obtain ⟨pn, hpn, sub, hsub, tail, htail, hl⟩ := h
  exact ⟨pn, sub, tail, hpn, hsub, htail, hl.symm⟩

/-- C2: `getSubnodesR` flattens a forest depth-first pre-order — the emitted
records are exactly `preorderF` of the forest (each child before its own
descendants, children in input order at every level) and their number is the
forest's node count; consequently `getSubnodes` emits exactly one record per
non-top-level node of the document tree. -/
theorem getSubnodes_flatten (getText getURL : JSStr → JSStr)
    (mapsLookup : JSStr → Option JSStr) :
    (∀ ns par l, getSubnodesR getText getURL mapsLookup ns par = some l →
      l.map TaggedNode.node = preorderF ns ∧ l.length = countF ns) ∧
    (∀ ns l, getSubnodes getText getURL mapsLookup ns = some l →
      l.length + ns.length = countF ns) := by
  have hR : ∀ ns par l,
      getSubnodesR getText getURL mapsLookup ns par = some l →
      l.map TaggedNode.node = preorderF ns ∧ l.length = countF ns := by
    intro ns par l h
    induction ns, par using getSubnodesR.induct getText getURL mapsLookup
        generalizing l with
    | case1 par =>
      simp only [getSubnodesR, Option.some.injEq] at h
      simp [← h, preorderF, countF]
    | case2 t no x y st cs rest par ih2 ih1 =>
      obtain ⟨pn, sub, tail, hpn, hsub, htail, hl⟩ :=
        getSubnodesR_cons_inv getText getURL mapsLookup t no x y st cs rest
          par l h
      obtain ⟨hm2, hc2⟩ := ih2 pn sub hsub
      obtain ⟨hm1, hc1⟩ := ih1 tail htail
      constructor
      · simp [hl, preorderF, hm2, hm1]
      · simp only [hl, List.length_cons, List.length_append, countF]
        omega
  refine ⟨hR, ?_⟩
  intro ns l h
  induction ns generalizing l with
  | nil =>
    simp only [getSubnodes, Option.some.injEq] at h
    simp [← h, countF]
  | cons n rest ih =>
    obtain ⟨pn, sub, tail, hpn, hsub, htail, hl⟩ :=
      getSubnodes_cons_inv getText getURL mapsLookup n rest l h
    have h2 := (hR _ _ _ hsub).2
    have h1 := ih tail htail
    obtain ⟨t, no, x, y, st, cs⟩ := n
    simp only [RawNode.nodes] at h2
    simp only [hl, List.length_append, List.length_cons, countF]
    omega

/-- C2 witness: the flatten theorem applied to the three-node chain
`nodeT → nodeB → nodeA`: two subnode records for the three-node tree. -/
theorem getSubnodes_flatten_witness :
    ∃ l, getSubnodes idJS idJS lkNone [nodeT] = some l ∧
      l.length + [nodeT].length = countF [nodeT] := by
  have hc : getSubnodes idJS idJS lkNone [nodeT] =
      some [⟨strU "top", nodeB⟩, ⟨strU "mid", nodeA⟩] := by
    simp [getSubnodes, getSubnodesR, nodeT, nodeB, nodeA, parseNode, idJS,
      lkNone, RawNode.title, RawNode.note, RawNode.nodes, RawNode.locx,
      RawNode.locy, matchIdToken, firstEmoji, strU, isHighSurrogate,
      isLowSurrogate, slashIdU]
  exact ⟨_, hc, (getSubnodes_flatten idJS idJS lkNone).2 [nodeT] _ hc⟩

/-- Every record emitted by `getSubnodesR ns par` either is a direct child of the
forest roots and is tagged `par`, or is a direct child of an earlier-emitted
record and is tagged with that record's parsed text. -/
theorem getSubnodesR_parent_aux (getText getURL : JSStr → JSStr)
    (mapsLookup : JSStr → Option JSStr) :
    ∀ ns par l, getSubnodesR getText getURL mapsLookup ns par = some l →
      ∀ l1 r l2, l = l1 ++ r :: l2 →
        (r.node ∈ ns ∧ r.parent = par) ∨
        (∃ r' ∈ l1, r.node ∈ r'.node.nodes ∧
          (parseNode getText getURL mapsLookup r'.node).map ParsedNode.text =
            some r.parent) := by
  intro ns par l h
  induction ns, par using getSubnodesR.induct getText getURL mapsLookup
      generalizing l with
  | case1 par =>
    simp only [getSubnodesR, Option.some.injEq] at h
    intro l1 r l2 heq
    rw [← h] at heq
    exact absurd heq.symm (List.append_ne_nil_of_right_ne_nil l1 (by simp))
  | case2 t no x y st cs rest par ih2 ih1 =>
    obtain ⟨pn, sub, tail, hpn, hsub, htail, hl⟩ :=
      getSubnodesR_cons_inv getText getURL mapsLookup t no x y st cs rest
        par l h
    intro l1 r l2 heq
    rw [hl] at heq
    cases l1 with
    | nil =>
      simp only [List.nil_append, List.cons.injEq] at heq
      left
      rw [← heq.1]
      exact ⟨List.mem_cons_self _ _, rfl⟩
    | cons a l1' =>
      simp only [List.cons_append, List.cons.injEq] at heq
      obtain ⟨ha, heq'⟩ := heq
      rcases List.append_eq_append_iff.mp heq' with
        ⟨a', hl1'eq, htaileq⟩ | ⟨c', hsubeq, hrl2⟩
      · rcases ih1 tail htail a' r l2 htaileq with hL | hR
        · exact Or.inl ⟨List.mem_cons_of_mem _ hL.1, hL.2⟩
        · obtain ⟨r', hr'mem, hx⟩ := hR
          refine Or.inr ⟨r', ?_, hx⟩
          rw [← ha, hl1'eq]
          exact List.mem_cons_of_mem _ (List.mem_append_right _ hr'mem)
      · cases c' with
        | nil =>
          simp only [List.nil_append] at hrl2
          rcases ih1 tail htail [] r l2 (by rw [← hrl2]; rfl) with hL | hR
          · exact Or.inl ⟨List.mem_cons_of_mem _ hL.1, hL.2⟩
          · obtain ⟨r', hr'mem, -⟩ := hR
            exact absurd hr'mem (List.not_mem_nil r')
        | cons rr c'' =>
          simp only [List.cons_append, List.cons.injEq] at hrl2
          rcases ih2 pn sub hsub l1' r c''
              (by rw [hsubeq, hrl2.1]) with hL | hR
          · right
            refine ⟨⟨par, RawNode.mk t no x y st cs⟩, ?_, ?_, ?_⟩
            · rw [← ha]; exact List.mem_cons_self _ _
            · simpa [RawNode.nodes] using hL.1
            · rw [hpn, hL.2]; rfl
          · obtain ⟨r', hr'mem, hx⟩ := hR
            exact Or.inr
              ⟨r', by rw [← ha]; exact List.mem_cons_of_mem _ hr'mem, hx⟩

/-- C3: every record emitted by `getSubnodes` is tagged with the parsed text
of its immediate structural ancestor — a top-level node it is a direct child
of, or an earlier-emitted record it is a direct child of — never a
grandparent or unrelated node; and `parseSubnode` copies the tag into the
final subnode's `parent` field verbatim. -/
theorem getSubnodes_parent (getText getURL : JSStr → JSStr)
    (mapsLookup : JSStr → Option JSStr) :
    (∀ ns l, getSubnodes getText getURL mapsLookup ns = some l →
      ∀ l1 r l2, l = l1 ++ r :: l2 →
        (∃ t ∈ ns, r.node ∈ t.nodes ∧
          (parseNode getText getURL mapsLookup t).map ParsedNode.text =
            some r.parent) ∨
        (∃ r' ∈ l1, r.node ∈ r'.node.nodes ∧
          (parseNode getText getURL mapsLookup r'.node).map ParsedNode.text =
            some r.parent)) ∧
    (∀ sn ps, parseSubnode getText getURL mapsLookup sn = some ps →
      ps.parent = sn.parent) := by
  constructor
  · intro ns l h
    induction ns generalizing l with
    | nil =>
      simp only [getSubnodes, Option.some.injEq] at h
      intro l1 r l2 heq
      rw [← h] at heq
      exact absurd heq.symm (List.append_ne_nil_of_right_ne_nil l1 (by simp))
    | cons n rest ih =>
      obtain ⟨pn, sub, tail, hpn, hsub, htail, hl⟩ :=
        getSubnodes_cons_inv getText getURL mapsLookup n rest l h
      intro l1 r l2 heq
      rw [hl] at heq
      rcases List.append_eq_append_iff.mp heq with
        ⟨a', hl1eq, htaileq⟩ | ⟨c', hsubeq, hrl2⟩
      · rcases ih tail htail a' r l2 htaileq with hL | hR
        · obtain ⟨tn, htn, hmem, htext⟩ := hL
          exact Or.inl ⟨tn, List.mem_cons_of_mem _ htn, hmem, htext⟩
        · obtain ⟨r', hr'mem, hx⟩ := hR
          refine Or.inr ⟨r', ?_, hx⟩
          rw [hl1eq]
          exact List.mem_append_right _ hr'mem
      · cases c' with
        | nil =>
          simp only [List.nil_append] at hrl2
          rcases ih tail htail [] r l2 (by rw [← hrl2]; rfl) with hL | hR
          · obtain ⟨tn, htn, hmem, htext⟩ := hL
            exact Or.inl ⟨tn, List.mem_cons_of_mem _ htn, hmem, htext⟩
          · obtain ⟨r', hr'mem, -⟩ := hR
            exact absurd hr'mem (List.not_mem_nil r')
        | cons rr c'' =>
          simp only [List.cons_append, List.cons.injEq] at hrl2
          rcases getSubnodesR_parent_aux getText getURL mapsLookup n.nodes
              pn.text sub hsub l1 r c'' (by rw [hsubeq, hrl2.1]) with hL | hR
          · exact Or.inl ⟨n, List.mem_cons_self _ _, hL.1,
              by rw [hpn, hL.2]; rfl⟩
          · exact Or.inr hR
  · intro sn ps hps
    simp only [parseSubnode, Option.map_eq_some'] at hps
    obtain ⟨pn, -, hf⟩ := hps
    rw [← hf]

/-- C3 witness: the parent theorem applied to the chain fixture — the second
emitted record (the leaf) is a direct child of the first emitted record and
carries that record's parsed text "mid". -/
theorem getSubnodes_parent_witness :
    (∃ t ∈ [nodeT], (⟨strU "mid", nodeA⟩ : TaggedNode).node ∈ t.nodes ∧
      (parseNode idJS idJS lkNone t).map ParsedNode.text =
        some (strU "mid")) ∨
    (∃ r' ∈ [(⟨strU "top", nodeB⟩ : TaggedNode)],
      (⟨strU "mid", nodeA⟩ : TaggedNode).node ∈ r'.node.nodes ∧
      (parseNode idJS idJS lkNone r'.node).map ParsedNode.text =
        some (strU "mid")) := by
  have hc : getSubnodes idJS idJS lkNone [nodeT] =
      some [⟨strU "top", nodeB⟩, ⟨strU "mid", nodeA⟩] := by
    simp [getSubnodes, getSubnodesR, nodeT, nodeB, nodeA, parseNode, idJS,
      lkNone, RawNode.title, RawNode.note, RawNode.nodes, RawNode.locx,
      RawNode.locy, matchIdToken, firstEmoji, strU, isHighSurrogate,
      isLowSurrogate, slashIdU]
  exact (getSubnodes_parent idJS idJS lkNone).1 [nodeT] _ hc
    [⟨strU "top", nodeB⟩] ⟨strU "mid", nodeA⟩ [] rfl
